import Mathlib

/-!
Verification of `clean_registry.py` (ricardobranco777/clean_registry, v1.7.0).

The development shallowly embeds the registry-cleaning logic of
`clean_registry.py`:

* the name validator `check_name` (source lines 113-137), with the two
  regular expressions embedded as `RegularExpression Char` terms and matched
  with Python `re.match` semantics (a trailing `$` also matches just before a
  final newline);
* the on-disk repository state (`_manifests/tags/<tag>/{current/link,
  index/sha256/<hash>}` and `_manifests/revisions/sha256/<hash>`) as
  `RepoState`, and the operations `clean_revisions` (lines 55-61),
  `clean_tag` (lines 64-81) and `clean_repo` (lines 84-110) as state
  transformers that also return the messages the script prints;
* the orchestration in `RegistryCleaner.__call__` and `main`
  (lines 234-261 and 376-390) as `runTargets`, `registryCall` and `mainRun`.

A second namespace `V2` models, from the specification document and the
repository's own test-suite (`tests/test_clean_registry.py`), the later
revision of the script that has a dry-run mode; that revision's code is not
part of this snapshot, only its tests are.
-/

namespace CleanRegistry

open Computability

/-! ## Regular expressions of `check_name`

`check_name` (source lines 113-137) validates `repository[:tag]` names with
`re.match(r'[a-zA-Z0-9_][a-zA-Z0-9_.-]*$', tag)` and
`re.match(r'[a-z0-9]+(?:(?:[._]|__|[-]*)[a-z0-9]+)*$', path)`.
We embed the regex bodies as `RegularExpression Char` terms and model
Python's `re.match` with a trailing `$`: the body must match the whole
string, or the whole string minus a single trailing newline. -/

/-- The character class `[a-z0-9]` of the repository-segment regex. -/
def lowerAlnumChars : List Char := "abcdefghijklmnopqrstuvwxyz0123456789".data

/-- The character class `[a-zA-Z0-9_]` (first character of a tag). -/
def tagFirstChars : List Char :=
  "abcdefghijklmnopqrstuvwxyzABCDEFGHIJKLMNOPQRSTUVWXYZ0123456789_".data

/-- The character class `[a-zA-Z0-9_.-]` (remaining characters of a tag). -/
def tagRestChars : List Char :=
  "abcdefghijklmnopqrstuvwxyzABCDEFGHIJKLMNOPQRSTUVWXYZ0123456789_.-".data

/-- A character class `[c₁c₂…]` as a regular expression: the sum of its
single-character atoms. -/
def charClass (cs : List Char) : RegularExpression Char :=
  cs.foldr (fun c r => RegularExpression.char c + r) 0

/-- The regex operator `R+`, i.e. `R · R*`. -/
def rePlus (r : RegularExpression Char) : RegularExpression Char := r * r.star

/-- Body of the tag regex of source line 131: `[a-zA-Z0-9_][a-zA-Z0-9_.-]*`. -/
def tagRE : RegularExpression Char :=
  charClass tagFirstChars * (charClass tagRestChars).star

/-- The separator alternative `(?:[._]|__|[-]*)` of the repository-segment
regex on source line 133 (note `[-]*`: zero or more dashes). -/
def sepCodeRE : RegularExpression Char :=
  charClass ['.', '_'] + RegularExpression.char '_' * RegularExpression.char '_'
    + (RegularExpression.char '-').star

/-- Body of the repository-segment regex of source line 133:
`[a-z0-9]+(?:(?:[._]|__|[-]*)[a-z0-9]+)*`. -/
def segCodeRE : RegularExpression Char :=
  rePlus (charClass lowerAlnumChars) *
    (sepCodeRE * rePlus (charClass lowerAlnumChars)).star

/-- The separator alternative `(?:[._]|__|-+)` as the specification writes
the repository-segment grammar (one or more dashes instead of zero or more). -/
def sepSpecRE : RegularExpression Char :=
  charClass ['.', '_'] + RegularExpression.char '_' * RegularExpression.char '_'
    + rePlus (RegularExpression.char '-')

/-- Body of the specification's repository-segment regex
`[a-z0-9]+((?:[._]|__|-+)[a-z0-9]+)*`. -/
def segSpecRE : RegularExpression Char :=
  rePlus (charClass lowerAlnumChars) *
    (sepSpecRE * rePlus (charClass lowerAlnumChars)).star

/-- Python `re.match(body + '$', s)`: the body must consume the whole string,
where the `$` anchor also matches just before a trailing newline. -/
def pyMatch (r : RegularExpression Char) (s : String) : Bool :=
  r.rmatch s.data || (s.data.getLast? == some '\n' && r.rmatch s.data.dropLast)

/-- Split a character list at the first occurrence of `sep`:
Python's `s.split(sep, 1)` when `sep` occurs, `none` when it does not. -/
def splitFirst (sep : Char) : List Char → Option (List Char × List Char)
  | [] => none
  | c :: cs =>
    if c = sep then some ([], cs)
    else match splitFirst sep cs with
         | some (a, b) => some (c :: a, b)
         | none => none

/-- Split a character list at every occurrence of `sep`:
Python's `s.split(sep)` for a single-character separator. -/
def splitAll (sep : Char) : List Char → List (List Char)
  | [] => [[]]
  | c :: cs =>
    match splitAll sep cs with
    | x :: xs => if c = sep then [] :: x :: xs else (c :: x) :: xs
    | [] => if c = sep then [[], []] else [[c]]

/-- The split `image.split(":", 1) if ":" in image else (image, dflt)` used by
both `check_name` (default `"latest"`, line 115) and `clean_repo`
(default `""`, line 86). -/
def splitName (dflt : String) (image : String) : String × String :=
  match splitFirst ':' image.data with
  | some (r, t) => (String.mk r, String.mk t)
  | none => (image, dflt)

/-- Embedding of `check_name` (source lines 113-137).  Truthiness of the
Python return value `len(image) < 256 and tag_valid and repo_valid`. -/
def check_name (image : String) : Bool :=
  let rt := splitName "latest" image
  let tag_valid := decide (rt.2.length < 129) && pyMatch tagRE rt.2
  let repo_valid := (splitAll '/' rt.1.data).all (fun p => pyMatch segCodeRE (String.mk p))
  decide (image.length < 256) && tag_valid && repo_valid

/-- The validator exactly as the specification describes it (claim C7):
the anchors `^…$` are read as a full match of the string, and the segment
grammar uses the `-+` separator.  This definition follows the spec's words
and is compared against `check_name`, which is translated from the source. -/
def spec_check_name (image : String) : Bool :=
  let rt := splitName "latest" image
  let tag_valid := decide (rt.2.length < 129) && tagRE.rmatch rt.2.data
  let repo_valid := (splitAll '/' rt.1.data).all (fun p => segSpecRE.rmatch p)
  decide (image.length < 256) && tag_valid && repo_valid

/-! ## The on-disk repository model

A repository directory `<repo>/_manifests` contains
`tags/<tag>/current/link` (a file holding `sha256:<hash>`; possibly absent),
`tags/<tag>/index/sha256/<hash>` directories, and
`revisions/sha256/<hash>` directories.  Directory listings are modelled as
lists; the only `sha256` directories two levels below `tags/` are the
`index/sha256` ones, so the glob `tags/*/*/sha256/*` of line 58 enumerates
exactly the index entries of all tags. -/

/-- One tag directory `_manifests/tags/<tag>`: the hash stored in
`current/link` (without its `sha256:` prefix; `none` when the link file is
absent) and the directory listing of `index/sha256/`. -/
@[ext]
structure TagDir where
  current : Option String
  index : List String
deriving DecidableEq, Repr

/-- One repository: the listing of `_manifests/tags/` (tag name with its
directory) and the listing of `_manifests/revisions/sha256/`. -/
@[ext]
structure RepoState where
  tags : List (String × TagDir)
  revisions : List String
deriving DecidableEq, Repr

/-- The registry's `repositories` directory: repository path-name with its
state. -/
abbrev Registry := List (String × RepoState)

/-- One line of output of the script: the `print` calls of `remove`
(line 52, one per removed directory, identified by what was removed) and the
error prints of `clean_tag` (line 68), `clean_repo` (line 89) and `main`
(lines 380 and 383). -/
inductive Msg where
  | removedRepo (repo : String)
  | removedTagDir (repo tag : String)
  | removedIndexEntry (repo tag hash : String)
  | removedRevision (repo hash : String)
  | errNoSuchTag (repo tag : String)
  | errNoSuchRepo (repo : String)
  | errInvalidName (image : String)
  | errRemoveRequiresImages
deriving DecidableEq, Repr

/-- The hashes listed by the glob `{repo}/_manifests/tags/*/*/sha256/*` of
source line 58: every index entry of every tag. -/
def allIndexed (r : RepoState) : List String :=
  (r.tags.map (fun p => p.2.index)).flatten

/-- Embedding of `clean_revisions` (source lines 55-61): delete every
revision hash that is not among the index entries of any tag.  Returns the
new state and the removal messages. -/
def clean_revisions (rn : String) (r : RepoState) : RepoState × List Msg :=
  let manifests := allIndexed r
  ({ r with revisions := r.revisions.filter (fun h => decide (h ∈ manifests)) },
   (r.revisions.filter (fun h => decide (h ∉ manifests))).map (Msg.removedRevision rn))

/-- Association-list deletion: `rmtree` of the directory entry named `k`. -/
def eraseEntry {β : Type} (l : List (String × β)) (k : String) : List (String × β) :=
  l.filter (fun p => decide (p.1 ≠ k))

/-- Association-list update of the entry named `k`. -/
def setEntry {β : Type} (l : List (String × β)) (k : String) (v : β) : List (String × β) :=
  l.map (fun p => if p.1 = k then (p.1, v) else p)

/-- The content of `{repo}/_manifests/tags/{tag}/current/link` (minus the
`sha256:` prefix): `none` iff the `os.path.isfile(link)` test of source
line 67 fails (either the tag directory or the link file is absent). -/
def linkOf (r : RepoState) (tag : String) : Option String :=
  (r.tags.lookup tag).bind (fun td => td.current)

/-- Embedding of `clean_tag` (source lines 64-81).  `removeFlag` is
`args.remove`.  Returns the success flag, the new repository state and the
printed messages, in print order. -/
def clean_tag (removeFlag : Bool) (rn : String) (r : RepoState) (tag : String) :
    Bool × RepoState × List Msg :=
  match r.tags.lookup tag with
  | none => (false, r, [Msg.errNoSuchTag rn tag])
  | some td =>
    match td.current with
    | none => (false, r, [Msg.errNoSuchTag rn tag])
    | some current =>
      if removeFlag then
        let r1 : RepoState := { r with tags := eraseEntry r.tags tag }
        let c := clean_revisions rn r1
        (true, c.1, Msg.removedTagDir rn tag :: c.2)
      else
        let td1 : TagDir := { current := td.current,
                              index := td.index.filter (fun h => decide (h = current)) }
        let removedIdx := td.index.filter (fun h => decide (h ≠ current))
        let r1 : RepoState := { r with tags := setEntry r.tags tag td1 }
        let c := clean_revisions rn r1
        (true, c.1, removedIdx.map (Msg.removedIndexEntry rn tag) ++ c.2)

/-- The `currents` set of source lines 101-104: the link contents of every
tag whose `current/link` file exists (the glob silently skips the others). -/
def currentsOf (r : RepoState) : List String :=
  r.tags.filterMap (fun p => p.2.current)

/-- The effect of the loop of source lines 105-107 on one tag directory:
every index entry whose hash is not among `currents` is removed. -/
def fTag (currents : List String) (p : String × TagDir) : String × TagDir :=
  (p.1, { current := p.2.current,
          index := p.2.index.filter (fun h => decide (h ∈ currents)) })

/-- Embedding of the all-tags branch of `clean_repo` (source lines 101-109):
collect the current hashes of every tag whose `current/link` exists
(the glob of line 102 silently skips tags without the link), delete every
index entry of every tag whose hash is not among those currents, then run
`clean_revisions`. -/
def cleanAllTags (rn : String) (r : RepoState) : RepoState × List Msg :=
  let currents := currentsOf r
  let removedIdx :=
    (r.tags.map (fun p =>
      (p.2.index.filter (fun h => decide (h ∉ currents))).map
        (Msg.removedIndexEntry rn p.1))).flatten
  let r1 : RepoState := { r with tags := r.tags.map (fTag currents) }
  let c := clean_revisions rn r1
  (c.1, removedIdx ++ c.2)

/-- The `set(os.listdir(f"{repo}/_manifests/tags/"))` of source line 93. -/
def tagSet (r : RepoState) : List String :=
  (r.tags.map (fun p => p.1)).dedup

/-- Embedding of `clean_repo` (source lines 84-110) after the
`image.split(":", 1)` of line 86 (`tag = ""` when the image had no colon).
Returns the success flag, the updated registry and the printed messages. -/
def cleanRepoCore (removeFlag : Bool) (reg : Registry) (repo tag : String) :
    Bool × Registry × List Msg :=
  match reg.lookup repo with
  | none => (false, reg, [Msg.errNoSuchRepo repo])
  | some r =>
    if removeFlag && (tag == "" || ((tagSet r).length == 1 && (tagSet r).contains tag)) then
      (true, eraseEntry reg repo, [Msg.removedRepo repo])
    else if tag ≠ "" then
      let c := clean_tag removeFlag repo r tag
      (c.1, setEntry reg repo c.2.1, c.2.2)
    else
      let c := cleanAllTags repo r
      (true, setEntry reg repo c.1, c.2)

/-- Embedding of `clean_repo` on a raw `repo[:tag]` image argument. -/
def clean_repo (removeFlag : Bool) (reg : Registry) (image : String) :
    Bool × Registry × List Msg :=
  let rt := splitName "" image
  cleanRepoCore removeFlag reg rt.1 rt.2

/-- The per-image loop of `RegistryCleaner.__call__` (source lines 246-249):
clean each target in order, never stopping on failure, and collect each
target's success flag. -/
def runTargets (removeFlag : Bool) (reg : Registry) :
    List String → Registry × List Msg × List Bool
  | [] => (reg, [], [])
  | img :: rest =>
    let c := clean_repo removeFlag reg img
    let rec' := runTargets removeFlag c.2.1 rest
    (rec'.1, c.2.2 ++ rec'.2.1, c.1 :: rec'.2.2)

/-- Embedding of `RegistryCleaner.__call__` (source lines 234-261): the
targets are the given images, or every repository when none are given
(line 243); `exit_status` is `0` iff no `clean_repo` call failed and the
garbage collector (modelled by the flag `gcOk`) succeeded. -/
def registryCall (removeFlag : Bool) (reg : Registry) (images : List String)
    (gcOk : Bool) : Nat × Registry × List Msg :=
  let targets := if images.isEmpty then reg.map (fun p => p.1) else images
  let c := runTargets removeFlag reg targets
  (if c.2.2.all (fun b => b) && gcOk then 0 else 1, c.1, c.2.1)

/-- Embedding of `main` (source lines 376-390): validate every image name
first, aborting with exit status 1 on the first invalid one; then reject
`--remove` without images; then run the cleaner. -/
def mainRun (removeFlag : Bool) (reg : Registry) (images : List String)
    (gcOk : Bool) : Nat × Registry × List Msg :=
  match images.find? (fun i => !check_name i) with
  | some bad => (1, reg, [Msg.errInvalidName bad])
  | none =>
    if removeFlag && images.isEmpty then (1, reg, [Msg.errRemoveRequiresImages])
    else registryCall removeFlag reg images gcOk

/-! ## Basic lemmas about the model -/

theorem mem_allIndexed {r : RepoState} {h : String} :
    h ∈ allIndexed r ↔ ∃ p ∈ r.tags, h ∈ p.2.index := by
  simp only [allIndexed, List.mem_flatten, List.mem_map]
  constructor
  · rintro ⟨l, ⟨p, hp, rfl⟩, hh⟩
    exact ⟨p, hp, hh⟩
  · rintro ⟨p, hp, hh⟩
    exact ⟨p.2.index, ⟨p, hp, rfl⟩, hh⟩

theorem clean_revisions_fst (rn : String) (r : RepoState) :
    (clean_revisions rn r).1 =
      { r with revisions := r.revisions.filter (fun h => decide (h ∈ allIndexed r)) } := rfl

theorem clean_revisions_snd (rn : String) (r : RepoState) :
    (clean_revisions rn r).2 =
      (r.revisions.filter (fun h => decide (h ∉ allIndexed r))).map
        (Msg.removedRevision rn) := rfl

/-- C1.  `clean_revisions` deletes exactly the revision hashes that appear
under `_manifests/revisions/sha256/` but not as a leaf of
`_manifests/tags/*/*/sha256/*` for any tag: a revision hash survives iff it
is referenced by at least one tag's index entry, a removal is reported for a
hash iff it is a revision referenced by no tag's index entry, and nothing
else in the repository is touched. -/
theorem clean_revisions_prunes_unreferenced (rn : String) (r : RepoState) :
    (clean_revisions rn r).1.tags = r.tags ∧
    (∀ h, h ∈ (clean_revisions rn r).1.revisions ↔
      h ∈ r.revisions ∧ ∃ p ∈ r.tags, h ∈ p.2.index) ∧
    (∀ h, Msg.removedRevision rn h ∈ (clean_revisions rn r).2 ↔
      h ∈ r.revisions ∧ ¬∃ p ∈ r.tags, h ∈ p.2.index) := by
  refine ⟨rfl, ?_, ?_⟩
  · intro h
    simp [clean_revisions, List.mem_filter, mem_allIndexed]
  · intro h
    simp [clean_revisions, List.mem_filter, mem_allIndexed]

theorem filter_idem {α : Type} (p : α → Bool) (l : List α) :
    (l.filter p).filter p = l.filter p :=
  List.filter_eq_self.mpr (fun _ ha => (List.mem_filter.mp ha).2)

theorem filter_not_mem_filter_mem (c : List String) (l : List String) :
    ((l.filter (fun h => decide (h ∈ c))).filter (fun h => decide (h ∉ c))) = [] := by
  rw [List.filter_eq_nil_iff]
  intro a ha
  have := (List.mem_filter.mp ha).2
  simp only [decide_eq_true_eq] at this ⊢
  exact fun hn => hn this

theorem allIndexed_congr {r s : RepoState} (h : r.tags = s.tags) :
    allIndexed r = allIndexed s := by
  simp only [allIndexed, h]

/-- The tag listing produced by one non-remove all-tags clean: every tag
keeps its `current` link and its index is filtered to current hashes. -/
theorem cleanAllTags_fst_tags (rn : String) (r : RepoState) :
    (cleanAllTags rn r).1.tags = r.tags.map (fTag (currentsOf r)) := rfl

theorem cleanAllTags_fst_revisions (rn : String) (r : RepoState) :
    (cleanAllTags rn r).1.revisions = r.revisions.filter (fun h =>
      decide (h ∈ allIndexed (cleanAllTags rn r).1)) := by
  have : allIndexed { r with tags := r.tags.map (fTag (currentsOf r)) }
      = allIndexed (cleanAllTags rn r).1 :=
    allIndexed_congr rfl
  rw [← this]
  rfl

theorem fTag_fTag (c : List String) (p : String × TagDir) :
    fTag c (fTag c p) = fTag c p := by
  simp only [fTag, filter_idem]

theorem cleanAllTags_snd (rn : String) (r : RepoState) :
    (cleanAllTags rn r).2
      = (r.tags.map (fun p =>
          (p.2.index.filter (fun h => decide (h ∉ currentsOf r))).map
            (Msg.removedIndexEntry rn p.1))).flatten
        ++ (clean_revisions rn { r with tags := r.tags.map (fTag (currentsOf r)) }).2 := rfl

theorem currentsOf_cleanAllTags (rn : String) (r : RepoState) :
    currentsOf (cleanAllTags rn r).1 = currentsOf r := by
  show ((cleanAllTags rn r).1.tags).filterMap _ = _
  rw [cleanAllTags_fst_tags, List.filterMap_map]
  rfl

/-- C4.  The non-removal prune (stale index entry pruning followed by
revision pruning, the tag-less branch of `clean_repo`) is idempotent: a
second run returns the same state and prints no removal at all; after one
run every remaining index entry equals some tag's current hash and every
remaining revision is referenced by some tag's index entry. -/
theorem cleanAllTags_idempotent (rn : String) (r : RepoState) :
    cleanAllTags rn (cleanAllTags rn r).1 = ((cleanAllTags rn r).1, []) ∧
    (∀ p ∈ (cleanAllTags rn r).1.tags, ∀ h ∈ p.2.index,
      ∃ q ∈ (cleanAllTags rn r).1.tags, q.2.current = some h) ∧
    (∀ h ∈ (cleanAllTags rn r).1.revisions,
      ∃ q ∈ (cleanAllTags rn r).1.tags, h ∈ q.2.index) := by
  set s := (cleanAllTags rn r).1 with hs
  have htags : s.tags = r.tags.map (fTag (currentsOf r)) := cleanAllTags_fst_tags rn r
  have hstable : s.tags.map (fTag (currentsOf s)) = s.tags := by
    rw [currentsOf_cleanAllTags, htags, List.map_map]
    have : fTag (currentsOf r) ∘ fTag (currentsOf r) = fTag (currentsOf r) :=
      funext (fTag_fTag (currentsOf r))
    rw [this]
  refine ⟨?_, ?_, ?_⟩
  · have hfst : (cleanAllTags rn s).1 = s := by
      show (clean_revisions rn { s with tags := s.tags.map (fTag (currentsOf s)) }).1 = s
      rw [clean_revisions_fst]
      ext : 1
      · show s.tags.map (fTag (currentsOf s)) = s.tags
        exact hstable
      · show List.filter _ s.revisions = s.revisions
        have hall : allIndexed { s with tags := s.tags.map (fTag (currentsOf s)) }
            = allIndexed s := allIndexed_congr hstable
        rw [hall, cleanAllTags_fst_revisions rn r, ← hs, filter_idem]
    have hsnd : (cleanAllTags rn s).2 = [] := by
      show (s.tags.map (fun p =>
          (p.2.index.filter (fun h => decide (h ∉ currentsOf s))).map
            (Msg.removedIndexEntry rn p.1))).flatten
        ++ (clean_revisions rn { s with tags := s.tags.map (fTag (currentsOf s)) }).2 = []
      have h1 : (s.tags.map (fun p =>
          (p.2.index.filter (fun h => decide (h ∉ currentsOf s))).map
            (Msg.removedIndexEntry rn p.1))).flatten = [] := by
        rw [List.flatten_eq_nil_iff]
        intro l hl
        rw [List.mem_map] at hl
        obtain ⟨p, hp, rfl⟩ := hl
        rw [htags, List.mem_map] at hp
        obtain ⟨q, _, rfl⟩ := hp
        rw [currentsOf_cleanAllTags]
        show ((q.2.index.filter _).filter _).map _ = []
        rw [filter_not_mem_filter_mem]
        rfl
      have h2 : (clean_revisions rn { s with tags := s.tags.map (fTag (currentsOf s)) }).2
          = [] := by
        rw [clean_revisions_snd]
        show (s.revisions.filter _).map _ = []
        have hall : allIndexed { s with tags := s.tags.map (fTag (currentsOf s)) }
            = allIndexed s := allIndexed_congr hstable
        rw [hall, cleanAllTags_fst_revisions rn r, ← hs, filter_not_mem_filter_mem]
        rfl
      rw [h1, h2]
      rfl
    exact Prod.ext hfst hsnd
  · intro p hp h hh
    rw [htags, List.mem_map] at hp
    obtain ⟨q, hq, rfl⟩ := hp
    have := List.mem_filter.mp hh
    rcases this with ⟨-, hmem⟩
    rw [decide_eq_true_eq] at hmem
    rw [currentsOf, List.mem_filterMap] at hmem
    obtain ⟨q', hq', hcur'⟩ := hmem
    refine ⟨fTag (currentsOf r) q', ?_, hcur'⟩
    rw [htags, List.mem_map]
    exact ⟨q', hq', rfl⟩
  · intro h hh
    rw [cleanAllTags_fst_revisions rn r, ← hs, List.mem_filter] at hh
    rcases hh with ⟨-, hmem⟩
    rw [decide_eq_true_eq, mem_allIndexed] at hmem
    exact hmem

theorem setEntry_cons {β : Type} (a : String) (b : β) (rest : List (String × β))
    (k : String) (v : β) :
    setEntry ((a, b) :: rest) k v
      = (if a = k then (a, v) else (a, b)) :: setEntry rest k v := by
  by_cases hk : a = k <;> simp [setEntry, hk]

theorem lookup_setEntry_self {β : Type} (l : List (String × β)) (k : String) (v : β)
    (h : (l.lookup k).isSome) : (setEntry l k v).lookup k = some v := by
  induction l with
  | nil => simp [List.lookup] at h
  | cons p rest ih =>
    obtain ⟨a, b⟩ := p
    rw [setEntry_cons]
    by_cases hk : a = k
    · subst hk
      rw [if_pos rfl]
      simp [List.lookup]
    · have hk' : (k == a) = false := by
        simp only [beq_eq_false_iff_ne, ne_eq]
        exact fun he => hk he.symm
      rw [if_neg hk]
      rw [List.lookup, hk'] at h ⊢
      exact ih h

theorem lookup_setEntry_ne {β : Type} (l : List (String × β)) (k k' : String) (v : β)
    (hne : k' ≠ k) : (setEntry l k v).lookup k' = l.lookup k' := by
  induction l with
  | nil => simp [setEntry]
  | cons p rest ih =>
    obtain ⟨a, b⟩ := p
    rw [setEntry_cons]
    by_cases hk : a = k
    · have hk' : (k' == a) = false := by
        simp only [beq_eq_false_iff_ne, ne_eq]
        exact fun he => hne (he.trans hk)
      rw [if_pos hk]
      rw [List.lookup, List.lookup, hk', ih]
    · rw [if_neg hk]
      by_cases hh : (k' == a) = true
      · rw [List.lookup, List.lookup, hh]
      · have hh' : (k' == a) = false := by
          cases hb : (k' == a) with
          | true => exact absurd hb hh
          | false => rfl
        rw [List.lookup, List.lookup, hh', ih]

/-- C3.  Cleaning an existing tag in non-remove mode reads the tag's
`current/link` hash `cur` and, within that tag's `index/sha256/`, deletes
exactly the entries different from `cur`: the resulting index keeps a hash
iff it was present and equals `cur`, a removal of an index entry of this tag
is reported exactly for the present hashes different from `cur`, every
other tag's directory is untouched, and the call reports success. -/
theorem clean_tag_keeps_only_current (rn : String) (r : RepoState) (tag : String)
    (td : TagDir) (cur : String)
    (hlook : r.tags.lookup tag = some td) (hcur : td.current = some cur) :
    (clean_tag false rn r tag).1 = true ∧
    (clean_tag false rn r tag).2.1.tags.lookup tag
      = some { current := some cur,
               index := td.index.filter (fun h => decide (h = cur)) } ∧
    (∀ h, h ∈ td.index.filter (fun h => decide (h = cur)) ↔ h ∈ td.index ∧ h = cur) ∧
    (∀ tag', tag' ≠ tag →
      (clean_tag false rn r tag).2.1.tags.lookup tag' = r.tags.lookup tag') ∧
    (∀ h, Msg.removedIndexEntry rn tag h ∈ (clean_tag false rn r tag).2.2 ↔
      h ∈ td.index ∧ h ≠ cur) := by
  have hidx : (clean_tag false rn r tag).2.1.tags
      = setEntry r.tags tag
          { current := td.current,
            index := td.index.filter (fun h => decide (h = cur)) } := by
    simp only [clean_tag, hlook, hcur]
    rfl
  refine ⟨?_, ?_, ?_, ?_, ?_⟩
  · simp only [clean_tag, hlook, hcur]
    rfl
  · rw [hidx, hcur] at *
    exact lookup_setEntry_self _ _ _ (by rw [hlook]; rfl)
  · intro h
    simp [List.mem_filter]
  · intro tag' hne
    rw [hidx]
    exact lookup_setEntry_ne _ _ _ _ hne
  · intro h
    simp only [clean_tag, hlook, hcur]
    show Msg.removedIndexEntry rn tag h ∈
      (td.index.filter (fun x => decide (x ≠ cur))).map (Msg.removedIndexEntry rn tag)
        ++ (clean_revisions rn _).2 ↔ _
    rw [List.mem_append, clean_revisions_snd]
    simp [List.mem_filter]

/-- The concrete repository used by the `clean_tag` witness: tag `a` with
live hash `h1` and index entries `h1` and `h0`. -/
def wRepo : RepoState :=
  { tags := [("a", { current := some "h1", index := ["h1", "h0"] })],
    revisions := ["h1", "h0"] }

/-- Witness for `clean_tag_keeps_only_current` at the concrete repository
`wRepo`. -/
theorem clean_tag_keeps_only_current_witness :
    (wRepo.tags.lookup "a" = some { current := some "h1", index := ["h1", "h0"] } ∧
      (({ current := some "h1", index := ["h1", "h0"] } : TagDir)).current = some "h1") ∧
    ((clean_tag false "repo" wRepo "a").1 = true ∧
      (clean_tag false "repo" wRepo "a").2.1.tags.lookup "a"
        = some { current := some "h1",
                 index := List.filter (fun h => decide (h = "h1")) ["h1", "h0"] } ∧
      (∀ h, h ∈ List.filter (fun h => decide (h = "h1")) ["h1", "h0"] ↔
        h ∈ (["h1", "h0"] : List String) ∧ h = "h1") ∧
      (∀ tag', tag' ≠ "a" →
        (clean_tag false "repo" wRepo "a").2.1.tags.lookup tag'
          = wRepo.tags.lookup tag') ∧
      (∀ h, Msg.removedIndexEntry "repo" "a" h ∈ (clean_tag false "repo" wRepo "a").2.2 ↔
        h ∈ (["h1", "h0"] : List String) ∧ h ≠ "h1")) :=
  ⟨⟨by decide, rfl⟩,
    clean_tag_keeps_only_current "repo" wRepo "a"
      { current := some "h1", index := ["h1", "h0"] } "h1" (by decide) rfl⟩

/-- A concrete registry with one repository `r` carrying two tags: `t1`
(current hash `a`, index `[a]`) and `t2` (current hash `b`, index `[b]`),
and revisions `[a, b]`. -/
def regTwoTags : Registry :=
  [("r", { tags := [("t1", { current := some "a", index := ["a"] }),
                    ("t2", { current := some "b", index := ["b"] })],
           revisions := ["a", "b"] })]

/-- C2 counterexample.  Removing tag `t1` of `regTwoTags` (remove mode, tag
given, repository has two tags) deletes the tag subtree and *also* the
revision `a` under `_manifests/revisions/sha256/`, which lies outside
`_manifests/tags/t1`: the claim that only the tag's subtree is deleted is
false at this input. -/
theorem clean_repo_remove_also_prunes_revisions_cex :
    cleanRepoCore true regTwoTags "r" "t1"
      = (true,
         [("r", { tags := [("t2", { current := some "b", index := ["b"] })],
                  revisions := ["b"] })],
         [Msg.removedTagDir "r" "t1", Msg.removedRevision "r" "a"]) ∧
    ((cleanRepoCore true regTwoTags "r" "t1").2.1.lookup "r").map
        (fun s => s.revisions) ≠ some ["a", "b"] := by
  constructor
  · rfl
  · decide

/-- C2 (amended).  In remove mode: with no tag given the whole repository
directory is deleted; with a tag given, if the repository's tag listing is
exactly that one tag, the whole repository directory is deleted; with a tag
given whose `current/link` exists while the repository has more than one
tag, the tag's subtree under `_manifests/tags/<tag>` is deleted, after which
`clean_revisions` also deletes every revision hash no longer referenced by
any remaining tag's index. -/
theorem clean_repo_remove_modes (reg : Registry) (repo : String) (r : RepoState)
    (hlook : reg.lookup repo = some r) :
    (cleanRepoCore true reg repo "" = (true, eraseEntry reg repo, [Msg.removedRepo repo])) ∧
    (∀ tag, tag ≠ "" → tagSet r = [tag] →
      cleanRepoCore true reg repo tag = (true, eraseEntry reg repo, [Msg.removedRepo repo])) ∧
    (∀ tag td cur, tag ≠ "" → 1 < (tagSet r).length →
      r.tags.lookup tag = some td → td.current = some cur →
      cleanRepoCore true reg repo tag
        = (true,
           setEntry reg repo
             (clean_revisions repo { r with tags := eraseEntry r.tags tag }).1,
           Msg.removedTagDir repo tag ::
             (clean_revisions repo { r with tags := eraseEntry r.tags tag }).2)) := by
  refine ⟨?_, ?_, ?_⟩
  · simp only [cleanRepoCore, hlook]
    rfl
  · intro tag htag hset
    have hc : ((tagSet r).contains tag) = true := by
      rw [hset]
      simp
    have hl : ((tagSet r).length == 1) = true := by
      rw [hset]
      rfl
    simp only [cleanRepoCore, hlook, hl, hc, Bool.true_and, Bool.and_true, Bool.or_true,
      if_true]
  · intro tag td cur htag hlen hltd hcur
    have hl : ((tagSet r).length == 1) = false := by
      rw [beq_eq_false_iff_ne]
      omega
    have ht : (tag == "") = false := beq_eq_false_iff_ne.mpr htag
    simp only [cleanRepoCore, hlook, hl, ht, Bool.false_and, Bool.or_false, Bool.true_and,
      Bool.false_eq_true, if_false, if_neg, htag, ne_eq, not_false_iff, if_true]
    simp only [clean_tag, hltd, hcur]
    rfl

/-- The repository record of `regTwoTags`, used by the witness below. -/
def repoTwoTags : RepoState :=
  { tags := [("t1", { current := some "a", index := ["a"] }),
             ("t2", { current := some "b", index := ["b"] })],
    revisions := ["a", "b"] }

/-- Witness for `clean_repo_remove_modes` on the registry `regTwoTags`. -/
theorem clean_repo_remove_modes_witness :
    (regTwoTags.lookup "r" = some repoTwoTags) ∧
    ((cleanRepoCore true regTwoTags "r" ""
        = (true, eraseEntry regTwoTags "r", [Msg.removedRepo "r"])) ∧
      (∀ tag, tag ≠ "" → tagSet repoTwoTags = [tag] →
        cleanRepoCore true regTwoTags "r" tag
          = (true, eraseEntry regTwoTags "r", [Msg.removedRepo "r"])) ∧
      (∀ tag td cur, tag ≠ "" → 1 < (tagSet repoTwoTags).length →
        repoTwoTags.tags.lookup tag = some td → td.current = some cur →
        cleanRepoCore true regTwoTags "r" tag
          = (true,
             setEntry regTwoTags "r"
               (clean_revisions "r" { repoTwoTags with
                  tags := eraseEntry repoTwoTags.tags tag }).1,
             Msg.removedTagDir "r" tag ::
               (clean_revisions "r" { repoTwoTags with
                  tags := eraseEntry repoTwoTags.tags tag }).2))) :=
  ⟨by decide, clean_repo_remove_modes regTwoTags "r" repoTwoTags (by decide)⟩

theorem lookup_map_fTag (c : List String) (l : List (String × TagDir)) (k : String) :
    (l.map (fTag c)).lookup k = (l.lookup k).map (fun td =>
      { current := td.current,
        index := td.index.filter (fun h => decide (h ∈ c)) }) := by
  induction l with
  | nil => rfl
  | cons p rest ih =>
    obtain ⟨a, b⟩ := p
    show List.lookup k ((a, _) :: rest.map (fTag c)) = _
    cases hk : (k == a) with
    | true => simp [List.lookup, hk, fTag]
    | false => simp [List.lookup, hk, ih]

/-- A concrete registry with one repository `r` carrying tag `t1` whose
`current/link` is absent (index `[a]`) and tag `t2` with current hash `b`
(index `[b]`); revisions `[a, b]`. -/
def regMissingLink : Registry :=
  [("r", { tags := [("t1", { current := none, index := ["a"] }),
                    ("t2", { current := some "b", index := ["b"] })],
           revisions := ["a", "b"] })]

/-- The repository record of `regMissingLink`. -/
def repoMissingLink : RepoState :=
  { tags := [("t1", { current := none, index := ["a"] }),
             ("t2", { current := some "b", index := ["b"] })],
    revisions := ["a", "b"] }

/-- C5 counterexample.  Iterating all tags of `regMissingLink` (non-remove,
no tag given): tag `t1` has no `current/link`, yet no error message is
printed (the run reports success and only removal messages), and `t1`'s
index entry `a` *is* pruned (it matches no other tag's current hash) — the
claim that such a tag is reported as an error and that its entries are not
pruned fails at this input. -/
theorem missing_link_all_tags_cex :
    cleanRepoCore false regMissingLink "r" ""
      = (true,
         [("r", { tags := [("t1", { current := none, index := [] }),
                           ("t2", { current := some "b", index := ["b"] })],
                  revisions := ["b"] })],
         [Msg.removedIndexEntry "r" "t1" "a", Msg.removedRevision "r" "a"]) ∧
    (∀ t, Msg.errNoSuchTag "r" t ∉ (cleanRepoCore false regMissingLink "r" "").2.2) := by
  constructor
  · rfl
  · intro t hmem
    have : (cleanRepoCore false regMissingLink "r" "").2.2
        = [Msg.removedIndexEntry "r" "t1" "a", Msg.removedRevision "r" "a"] := rfl
    rw [this] at hmem
    simp at hmem

/-- C5 (amended).  A tag whose `current/link` file is absent is reported as
an error — with no deletion at all — exactly when it is the explicitly
targeted tag (`clean_tag`, either mode).  When the operation iterates all
tags of a repository, no error is reported for such a tag: it is silently
excluded from the `currents` set (contributing no kept entries on its
behalf), while its own index entries are pruned against the other tags'
current hashes; the per-image loop continues with the remaining targets
either way. -/
theorem missing_link_behavior :
    (∀ (rm : Bool) (rn : String) (r : RepoState) (tag : String),
      linkOf r tag = none →
      clean_tag rm rn r tag = (false, r, [Msg.errNoSuchTag rn tag])) ∧
    (∀ (reg : Registry) (repo : String) (r : RepoState) (tag : String) (td : TagDir),
      reg.lookup repo = some r → r.tags.lookup tag = some td → td.current = none →
      (cleanRepoCore false reg repo "").1 = true ∧
      (∀ t, Msg.errNoSuchTag repo t ∉ (cleanRepoCore false reg repo "").2.2) ∧
      (cleanRepoCore false reg repo "").2.1.lookup repo = some (cleanAllTags repo r).1 ∧
      (cleanAllTags repo r).1.tags.lookup tag
        = some { current := none,
                 index := td.index.filter (fun h => decide (h ∈ currentsOf r)) }) ∧
    (∀ (rm : Bool) (reg : Registry) (img : String) (rest : List String),
      (runTargets rm reg (img :: rest)).2.2
        = (clean_repo rm reg img).1 :: (runTargets rm (clean_repo rm reg img).2.1 rest).2.2) := by
  refine ⟨?_, ?_, ?_⟩
  · intro rm rn r tag hnone
    rw [linkOf] at hnone
    cases hl : r.tags.lookup tag with
    | none => cases rm <;> simp [clean_tag, hl]
    | some td =>
      rw [hl] at hnone
      have hc : td.current = none := hnone
      cases rm <;> simp [clean_tag, hl, hc]
  · intro reg repo r tag td hlook hltd hcur
    have hcore : cleanRepoCore false reg repo ""
        = (true, setEntry reg repo (cleanAllTags repo r).1, (cleanAllTags repo r).2) := by
      simp only [cleanRepoCore, hlook]
      rfl
    refine ⟨by rw [hcore], ?_, ?_, ?_⟩
    · intro t hmem
      rw [hcore] at hmem
      rw [cleanAllTags_snd, List.mem_append, clean_revisions_snd] at hmem
      rcases hmem with hmem | hmem
      · rw [List.mem_flatten] at hmem
        obtain ⟨l, hl, hm⟩ := hmem
        rw [List.mem_map] at hl
        obtain ⟨p, _, rfl⟩ := hl
        rw [List.mem_map] at hm
        obtain ⟨h, _, he⟩ := hm
        exact Msg.noConfusion he
      · rw [List.mem_map] at hmem
        obtain ⟨h, _, he⟩ := hmem
        exact Msg.noConfusion he
    · rw [hcore]
      exact lookup_setEntry_self _ _ _ (by rw [hlook]; rfl)
    · rw [cleanAllTags_fst_tags, lookup_map_fTag, hltd]
      simp only [Option.map]
      rw [hcur]
  · intro rm reg img rest
    rfl

/-- Witness for `missing_link_behavior`: its all-tags clause applied to the
concrete registry `regMissingLink` and its link-less tag `t1`. -/
theorem missing_link_behavior_witness :
    (regMissingLink.lookup "r" = some repoMissingLink ∧
      repoMissingLink.tags.lookup "t1" = some { current := none, index := ["a"] } ∧
      ({ current := none, index := ["a"] } : TagDir).current = none) ∧
    ((cleanRepoCore false regMissingLink "r" "").1 = true ∧
      (∀ t, Msg.errNoSuchTag "r" t ∉ (cleanRepoCore false regMissingLink "r" "").2.2) ∧
      (cleanRepoCore false regMissingLink "r" "").2.1.lookup "r"
        = some (cleanAllTags "r" repoMissingLink).1 ∧
      (cleanAllTags "r" repoMissingLink).1.tags.lookup "t1"
        = some { current := none,
                 index := List.filter (fun h =>
                   decide (h ∈ currentsOf repoMissingLink)) ["a"] }) :=
  ⟨⟨by decide, by decide, rfl⟩,
    missing_link_behavior.2.1 regMissingLink "r" repoMissingLink "t1"
      { current := none, index := ["a"] } (by decide) (by decide) rfl⟩

/-- C10.  Giving `-x`/`--remove` with no positional repository argument
aborts the run with an error and exit status 1, leaving the registry
untouched: remove mode is never applied to the discovered repositories. -/
theorem remove_requires_images (reg : Registry) (gcOk : Bool) :
    mainRun true reg [] gcOk = (1, reg, [Msg.errRemoveRequiresImages]) := rfl

/-- C8.  Name validation is fail-fast: if any supplied image fails
`check_name`, `main` aborts with exit status 1 on the first failing name,
printing only the validation error, before the cleaner runs — the registry
is returned unchanged, so no deletion at all happens. -/
theorem validation_fail_fast (rm : Bool) (reg : Registry) (images : List String)
    (gcOk : Bool) (hbad : ∃ i ∈ images, check_name i = false) :
    ∃ bad ∈ images, check_name bad = false ∧
      images.find? (fun i => !check_name i) = some bad ∧
      mainRun rm reg images gcOk = (1, reg, [Msg.errInvalidName bad]) := by
  have hsome : (images.find? (fun i => !check_name i)).isSome := by
    rw [List.find?_isSome]
    obtain ⟨i, hi, hci⟩ := hbad
    exact ⟨i, hi, by simp [hci]⟩
  obtain ⟨bad, hfind⟩ := Option.isSome_iff_exists.mp hsome
  have hmem := List.mem_of_find?_eq_some hfind
  have hprop := List.find?_some hfind
  rw [Bool.not_eq_eq_eq_not, Bool.not_true] at hprop
  refine ⟨bad, hmem, hprop, hfind, ?_⟩
  simp only [mainRun, hfind]

/-- Witness for `validation_fail_fast`: the image list `["ok", "Bad"]`,
whose second entry has an uppercase repository name. -/
theorem validation_fail_fast_witness :
    (∃ i ∈ ["ok", "Bad"], check_name i = false) ∧
    (∃ bad ∈ ["ok", "Bad"], check_name bad = false ∧
      ["ok", "Bad"].find? (fun i => !check_name i) = some bad ∧
      mainRun false [] ["ok", "Bad"] true = (1, [], [Msg.errInvalidName bad])) :=
  ⟨by decide, validation_fail_fast false [] ["ok", "Bad"] true (by decide)⟩

/-- The `os.path.isfile(link)` guard of `clean_tag` (source lines 66-69):
when the targeted tag's `current/link` is absent, `clean_tag` prints the
error and returns `False` without touching the repository, in either mode. -/
theorem clean_tag_of_linkOf_none (rm : Bool) (rn : String) (r : RepoState)
    (tag : String) (h : linkOf r tag = none) :
    clean_tag rm rn r tag = (false, r, [Msg.errNoSuchTag rn tag]) := by
  rw [linkOf] at h
  cases hl : r.tags.lookup tag with
  | none => cases rm <;> simp [clean_tag, hl]
  | some td =>
    rw [hl] at h
    have hc : td.current = none := h
    cases rm <;> simp [clean_tag, hl, hc]

/-- C9.  A non-existent repository, and likewise a targeted tag whose
`current/link` is absent (unless the remove-whole-repository rule of line 94
fires first), is a per-target error: `clean_repo` reports it and leaves the
repository states unchanged; the per-image loop continues with the remaining
targets after any failure; and the run's exit status is 0 exactly when every
processed target succeeded and the garbage collector succeeded. -/
theorem exit_status_spec :
    (∀ (rm : Bool) (reg : Registry) (repo tag : String),
      reg.lookup repo = none →
      cleanRepoCore rm reg repo tag = (false, reg, [Msg.errNoSuchRepo repo])) ∧
    (∀ (rm : Bool) (reg : Registry) (repo tag : String) (r : RepoState),
      reg.lookup repo = some r → tag ≠ "" → linkOf r tag = none →
      ¬(rm = true ∧ (tagSet r).length = 1 ∧ tag ∈ tagSet r) →
      cleanRepoCore rm reg repo tag
          = (false, setEntry reg repo r, [Msg.errNoSuchTag repo tag]) ∧
        (cleanRepoCore rm reg repo tag).2.1.lookup repo = some r) ∧
    (∀ (rm : Bool) (reg : Registry) (img : String) (rest : List String),
      runTargets rm reg (img :: rest)
        = ((runTargets rm (clean_repo rm reg img).2.1 rest).1,
           (clean_repo rm reg img).2.2
             ++ (runTargets rm (clean_repo rm reg img).2.1 rest).2.1,
           (clean_repo rm reg img).1
             :: (runTargets rm (clean_repo rm reg img).2.1 rest).2.2)) ∧
    (∀ (rm : Bool) (reg : Registry) (images : List String) (gcOk : Bool),
      (registryCall rm reg images gcOk).1 = 0 ↔
        ((∀ b ∈ (runTargets rm reg
            (if images.isEmpty then reg.map (fun p => p.1) else images)).2.2,
          b = true) ∧ gcOk = true)) := by
  refine ⟨?_, ?_, ?_, ?_⟩
  · intro rm reg repo tag h
    simp [cleanRepoCore, h]
  · intro rm reg repo tag r hlook htag hlink hnot
    have hguard : (rm && (tag == ""
        || ((tagSet r).length == 1 && (tagSet r).contains tag))) = false := by
      cases rm with
      | false => rfl
      | true =>
        rw [Bool.true_and, beq_eq_false_iff_ne.mpr htag, Bool.false_or]
        cases hlen : ((tagSet r).length == 1) with
        | false => rfl
        | true =>
          cases hcont : ((tagSet r).contains tag) with
          | false => rfl
          | true =>
            exact absurd ⟨rfl, beq_iff_eq.mp hlen,
              by simpa using hcont⟩ hnot
    have hmain : cleanRepoCore rm reg repo tag
        = (false, setEntry reg repo r, [Msg.errNoSuchTag repo tag]) := by
      simp only [cleanRepoCore, hlook, hguard, Bool.false_eq_true, if_false,
        if_pos htag, clean_tag_of_linkOf_none rm repo r tag hlink]
    refine ⟨hmain, ?_⟩
    rw [hmain]
    exact lookup_setEntry_self _ _ _ (by rw [hlook]; rfl)
  · intro rm reg img rest
    rfl
  · intro rm reg images gcOk
    simp only [registryCall]
    cases hc : ((runTargets rm reg
        (if images.isEmpty then reg.map (fun p => p.1) else images)).2.2.all
          (fun b => b) && gcOk) with
    | true =>
      rw [if_pos rfl]
      rw [Bool.and_eq_true, List.all_eq_true] at hc
      constructor
      · intro _
        exact ⟨fun b hb => by simpa using hc.1 b hb, hc.2⟩
      · intro _
        rfl
    | false =>
      rw [if_neg Bool.false_ne_true]
      constructor
      · intro h01
        exact absurd h01 one_ne_zero
      · rintro ⟨hall, hgc⟩
        subst hgc
        have hta : (runTargets rm reg
            (if images.isEmpty then reg.map (fun p => p.1) else images)).2.2.all
              (fun b => b) = true :=
          List.all_eq_true.mpr (by intro b hb; simpa using hall b hb)
        rw [hta, Bool.true_and] at hc
        exact absurd hc (by simp)

/-- Witness for `exit_status_spec`: its missing-repository clause applied to
`regTwoTags` with the absent repository name `nope`, and its missing-tag
clause applied to `regMissingLink` with the link-less tag `t1`. -/
theorem exit_status_spec_witness :
    (regTwoTags.lookup "nope" = none ∧
      regMissingLink.lookup "r" = some repoMissingLink ∧
      ("t1" : String) ≠ "" ∧ linkOf repoMissingLink "t1" = none ∧
      ¬(false = true ∧ (tagSet repoMissingLink).length = 1 ∧
        "t1" ∈ tagSet repoMissingLink)) ∧
    (cleanRepoCore false regTwoTags "nope" ""
        = (false, regTwoTags, [Msg.errNoSuchRepo "nope"]) ∧
      (cleanRepoCore false regMissingLink "r" "t1"
          = (false, setEntry regMissingLink "r" repoMissingLink,
             [Msg.errNoSuchTag "r" "t1"]) ∧
        (cleanRepoCore false regMissingLink "r" "t1").2.1.lookup "r"
          = some repoMissingLink)) :=
  ⟨⟨by decide, by decide, by decide, by decide, by decide⟩,
    exit_status_spec.1 false regTwoTags "nope" "" (by decide),
    exit_status_spec.2.1 false regMissingLink "r" "t1" repoMissingLink
      (by decide) (by decide) (by decide) (by decide)⟩

/-! ## The two segment grammars denote the same language

The source's separator `(?:[._]|__|[-]*)` admits an empty separator (zero
dashes), the specification's `(?:[._]|__|-+)` does not; an empty separator
merely glues two alphanumeric runs into one, so the two segment regexes
match the same strings.  This is proved once and for all through the Kleene
algebra of languages. -/

theorem ka_denest {α : Type} [KleeneAlgebra α] (a b : α) :
    (a + b)∗ = a∗ * (b * a∗)∗ := by
  apply le_antisymm
  · apply kstar_le_of_mul_le_right
    · calc (1 : α) = 1 * 1 := (one_mul 1).symm
        _ ≤ a∗ * (b * a∗)∗ := mul_le_mul' one_le_kstar one_le_kstar
    · rw [add_mul]
      apply add_le
      · rw [← mul_assoc]
        exact mul_le_mul_right' mul_kstar_le_kstar _
      · calc b * (a∗ * (b * a∗)∗) = (b * a∗) * (b * a∗)∗ := by rw [mul_assoc]
          _ ≤ (b * a∗)∗ := mul_kstar_le_kstar
          _ = 1 * (b * a∗)∗ := (one_mul _).symm
          _ ≤ a∗ * (b * a∗)∗ := mul_le_mul_right' one_le_kstar _
  · have hba : b * a∗ ≤ (a + b)∗ :=
      calc b * a∗ ≤ (a + b) * (a + b)∗ := mul_le_mul' le_add_self (kstar_mono le_self_add)
        _ ≤ (a + b)∗ := mul_kstar_le_kstar
    calc a∗ * (b * a∗)∗
        ≤ (a + b)∗ * ((a + b)∗)∗ := mul_le_mul' (kstar_mono le_self_add) (kstar_mono hba)
      _ = (a + b)∗ * (a + b)∗ := by rw [kstar_idem]
      _ = (a + b)∗ := kstar_mul_kstar _

theorem ka_plus_kstar {α : Type} [KleeneAlgebra α] (a : α) : (a * a∗)∗ = a∗ := by
  apply le_antisymm
  · apply kstar_le_of_mul_le_left one_le_kstar
    calc a∗ * (a * a∗) = (a∗ * a) * a∗ := by rw [mul_assoc]
      _ ≤ a∗ * a∗ := mul_le_mul_right' kstar_mul_le_kstar _
      _ = a∗ := kstar_mul_kstar _
  · exact kstar_mono (le_mul_of_one_le_right' one_le_kstar)

/-- In any Kleene algebra, making the separator optional changes nothing
once every factor ends in `a⁺`: `a⁺((c+1)a⁺)* = a⁺(c a⁺)*`. -/
theorem ka_optional_sep {α : Type} [KleeneAlgebra α] (a c : α) :
    (a * a∗) * ((c + 1) * (a * a∗))∗ = (a * a∗) * (c * (a * a∗))∗ := by
  have haa : (a * a∗) * a∗ = a * a∗ := by
    rw [mul_assoc, kstar_mul_kstar]
  rw [add_mul, one_mul, add_comm, ka_denest (a * a∗) (c * (a * a∗)), ka_plus_kstar,
    ← mul_assoc, haa]
  have hin : c * (a * a∗) * a∗ = c * (a * a∗) := by
    rw [mul_assoc, haa]
  rw [hin]

theorem sepCode_matches_eq :
    sepCodeRE.matches' = sepSpecRE.matches' + 1 := by
  simp only [sepCodeRE, sepSpecRE, rePlus, RegularExpression.matches'_add,
    RegularExpression.matches'_mul, RegularExpression.matches'_star]
  conv_lhs => rw [← Language.one_add_self_mul_kstar_eq_kstar
    ((RegularExpression.char '-').matches')]
  rw [add_comm 1 ((RegularExpression.char '-').matches'
    * (RegularExpression.char '-').matches'∗), ← add_assoc]

theorem segCode_matches_eq : segCodeRE.matches' = segSpecRE.matches' := by
  simp only [segCodeRE, segSpecRE, rePlus, RegularExpression.matches'_mul,
    RegularExpression.matches'_star, sepCode_matches_eq]
  exact ka_optional_sep (charClass lowerAlnumChars).matches' sepSpecRE.matches'

theorem segCode_rmatch_eq (l : List Char) : segCodeRE.rmatch l = segSpecRE.rmatch l := by
  have h1 := RegularExpression.rmatch_iff_matches' segCodeRE l
  have h2 := RegularExpression.rmatch_iff_matches' segSpecRE l
  rw [segCode_matches_eq] at h1
  cases hb : segSpecRE.rmatch l with
  | true => exact h1.mpr (h2.mp hb)
  | false =>
    cases hc : segCodeRE.rmatch l with
    | true => exact absurd (h2.mpr (h1.mp hc)) (by rw [hb]; exact Bool.false_ne_true)
    | false => rfl

theorem pyMatch_segCode_eq (s : String) : pyMatch segCodeRE s = pyMatch segSpecRE s := by
  simp only [pyMatch, segCode_rmatch_eq]

/-- C7 counterexample.  At the image `"a:b\n"` (a trailing newline in the
tag), `check_name` returns true — Python's `re.match` lets a final `$` match
just before a trailing newline — while the specification's reading of the
anchored regexes (a full match) classifies the tag as invalid, so the
claimed "returns false exactly when …" equivalence fails at this input,
as does "any single violating character makes it false". -/
theorem check_name_newline_cex :
    check_name "a:b\n" = true ∧ spec_check_name "a:b\n" = false ∧
    tagRE.rmatch ("b\n".data) = false := by
  refine ⟨by decide, by decide, by decide⟩

/-- C7 (amended).  `check_name` splits on the first `:` (tag defaulting to
`latest`) and returns false exactly when: the total length is ≥ 256, or the
tag length is ≥ 129, or the tag fails `[A-Za-z0-9_][A-Za-z0-9_.-]*$`, or
some `/`-delimited repository segment fails
`[a-z0-9]+((?:[._]|__|-+)[a-z0-9]+)*$` — both regexes applied with Python
`re.match` semantics, where the trailing `$` also matches just before a
final newline. -/
theorem check_name_characterization (image : String) :
    check_name image = false ↔
      (256 ≤ image.length ∨ 129 ≤ (splitName "latest" image).2.length ∨
        pyMatch tagRE (splitName "latest" image).2 = false ∨
        ∃ p ∈ splitAll '/' (splitName "latest" image).1.data,
          pyMatch segSpecRE (String.mk p) = false) := by
  simp only [check_name, Bool.and_eq_false_iff, decide_eq_false_iff_not, not_lt,
    List.all_eq_false, Bool.not_eq_true, pyMatch_segCode_eq]
  tauto

namespace V2

/-!
The repository's test-suite (`tests/test_clean_registry.py`) imports
`run_command`, `clean_registrydir`, `remove_dir` and `garbage_collect` with
a `dry_run` parameter from a later revision of `clean_registry.py` that is
not part of this snapshot; only the specification document and those tests
describe it.  The definitions below therefore carry `Modelled from the
spec:` doc comments and C6 is settled against them.
-/

/-- One reported event of the dry-run-capable revision: a performed
removal, a simulated removal, an error line, or the external
garbage-collector invocation with its argument list. -/
inductive Ev where
  | removedDir (path : String)
  | wouldRemoveDir (path : String)
  | errorMsg (text : String)
  | ranGC (args : List String)
deriving DecidableEq, Repr

/-- Modelled from the spec: the Directory Pruner `prune(path, dryRun)` of
§4.3 (the missing `remove_dir` function, pinned by
`test_remove_dir_dry_run`/`test_remove_dir_normal`): recursively removes
`path` unless `dryRun` is set, in which case it only reports that the path
would be removed. -/
def pruneStep (dryRun : Bool) (path : String) (del : Registry → Registry)
    (g : Registry) : Registry × List Ev :=
  (if dryRun then g else del g,
   [if dryRun then Ev.wouldRemoveDir path else Ev.removedDir path])

/-- Prune a resolved list of `(path, deletion)` pairs in order, threading
the registry state. -/
def pruneMany (dryRun : Bool) (items : List (String × (Registry → Registry)))
    (g : Registry) : Registry × List Ev :=
  match items with
  | [] => (g, [])
  | it :: rest =>
    let p := pruneStep dryRun it.1 it.2 g
    let q := pruneMany dryRun rest p.1
    (q.1, p.2 ++ q.2)

/-- The path of a tag subtree in the fixed layout of §6. -/
def tagPath (repo tag : String) : String := repo ++ "/_manifests/tags/" ++ tag

/-- The path of one tag-index entry. -/
def indexPath (repo tag hash : String) : String :=
  tagPath repo tag ++ "/index/sha256/" ++ hash

/-- The path of one manifest-revision entry. -/
def revPath (repo hash : String) : String :=
  repo ++ "/_manifests/revisions/sha256/" ++ hash

/-- Deletion of one index entry of one tag of one repository. -/
def eraseIndexEntry (repo t h : String) : Registry → Registry := fun g =>
  match g.lookup repo with
  | none => g
  | some rr => setEntry g repo
      { rr with tags := rr.tags.map (fun q =>
          if q.1 = t
          then (q.1, { current := q.2.current,
                       index := q.2.index.filter (fun x => decide (x ≠ h)) })
          else q) }

/-- Deletion of one revision entry of one repository. -/
def eraseRevision (repo h : String) : Registry → Registry := fun g =>
  match g.lookup repo with
  | none => g
  | some rr => setEntry g repo
      { rr with revisions := rr.revisions.filter (fun x => decide (x ≠ h)) }

/-- Modelled from the spec: `resolve_unused_revisions` of §4.2 — the
revision hashes referenced by no tag's index entries. -/
def resolve_unused_revisions (r : RepoState) : List String :=
  r.revisions.filter (fun h => decide (h ∉ allIndexed r))

/-- Modelled from the spec: `resolve_stale_index_entries` of §4.2 for a tag
selection — for each selected tag with a live hash, every index entry
different from that tag's own live hash; tags without `current/link`
contribute nothing (§4.2 edge case). -/
def staleItems (repo : String) (sel : List (String × TagDir)) :
    List (String × (Registry → Registry)) :=
  (sel.map (fun p =>
    match p.2.current with
    | some c => (p.2.index.filter (fun h => decide (h ≠ c))).map (fun h =>
        (indexPath repo p.1 h, eraseIndexEntry repo p.1 h))
    | none => [])).flatten

/-- Modelled from the spec: the §4.2 edge case — a selected tag whose
`current/link` is missing is reported as an error. -/
def missingLinkErrors (repo : String) (sel : List (String × TagDir)) : List Ev :=
  sel.filterMap (fun p =>
    match p.2.current with
    | none => some (Ev.errorMsg ("No such tag: " ++ p.1 ++ " in repository " ++ repo))
    | some _ => none)

/-- Modelled from the spec: one target of the per-target decision table of
§4.4, with the Resolver of §4.2 and the Pruner of §4.3; every deletion goes
through `pruneStep`, which honours `dryRun`. -/
def cleanRepoV2 (dryRun removeFlag : Bool) (reg : Registry) (repo tag : String) :
    Registry × List Ev × Bool :=
  match reg.lookup repo with
  | none => (reg, [Ev.errorMsg ("No such repository: " ++ repo)], false)
  | some r =>
    if removeFlag then
      if tag = "" then
        let p := pruneStep dryRun repo (fun g => eraseEntry g repo) reg
        (p.1, p.2, true)
      else
        match linkOf r tag with
        | none =>
          (reg, [Ev.errorMsg ("No such tag: " ++ tag ++ " in repository " ++ repo)], false)
        | some _ =>
          if tagSet r = [tag] then
            let p := pruneStep dryRun repo (fun g => eraseEntry g repo) reg
            (p.1, p.2, true)
          else
            let p := pruneStep dryRun (tagPath repo tag)
              (fun g => setEntry g repo { r with tags := eraseEntry r.tags tag }) reg
            (p.1, p.2, true)
    else if tag ≠ "" then
      match r.tags.lookup tag with
      | none =>
        (reg, [Ev.errorMsg ("No such tag: " ++ tag ++ " in repository " ++ repo)], false)
      | some td =>
        match td.current with
        | none =>
          (reg, [Ev.errorMsg ("No such tag: " ++ tag ++ " in repository " ++ repo)], false)
        | some _ =>
          let p1 := pruneMany dryRun (staleItems repo [(tag, td)]) reg
          let r1 := match p1.1.lookup repo with
                    | some x => x
                    | none => r
          let p2 := pruneMany dryRun ((resolve_unused_revisions r1).map (fun h =>
            (revPath repo h, eraseRevision repo h))) p1.1
          (p2.1, p1.2 ++ p2.2, true)
    else
      let errs := missingLinkErrors repo r.tags
      let p1 := pruneMany dryRun (staleItems repo r.tags) reg
      let r1 := match p1.1.lookup repo with
                | some x => x
                | none => r
      let p2 := pruneMany dryRun ((resolve_unused_revisions r1).map (fun h =>
        (revPath repo h, eraseRevision repo h))) p1.1
      (p2.1, errs ++ p1.2 ++ p2.2, errs.isEmpty)

/-- The per-image loop of the Orchestrator (§4.4): clean every target,
never stopping on failure. -/
def runTargetsV2 (dryRun removeFlag : Bool) (reg : Registry) :
    List String → Registry × List Ev × Bool
  | [] => (reg, [], true)
  | img :: rest =>
    let rt := splitName "" img
    let c := cleanRepoV2 dryRun removeFlag reg rt.1 rt.2
    let q := runTargetsV2 dryRun removeFlag c.1 rest
    (q.1, c.2.1 ++ q.2.1, c.2.2 && q.2.2)

/-- Modelled from the spec: the garbage-collector command line of §6,
`registry garbage-collect [--dry-run] <config-path>`, exactly as pinned by
`test_garbage_collect_dry_run`/`test_garbage_collect_normal`. -/
def gcCommand (dryRun : Bool) : List String :=
  ["/bin/registry", "garbage-collect", "--delete-untagged"]
    ++ (if dryRun then ["--dry-run"] else [])
    ++ ["/etc/docker/registry/config.yml"]

/-- Modelled from the spec: the missing `garbage_collect(dry_run)` — it
always invokes the external collector, passing `--dry-run` through, and
relays the collector's success (`gcOk`). -/
def garbage_collect (dryRun : Bool) (gcOk : Bool) : List Ev × Bool :=
  ([Ev.ranGC (gcCommand dryRun)], gcOk)

/-- Modelled from the spec: the Orchestrator state machine of §4.4 —
validate names (fail fast), clean every target (explicit list, or all
repositories when none given), then invoke the garbage collector; exit
status 0 iff every target and the collector succeeded. -/
def runV2 (dryRun removeFlag : Bool) (reg : Registry) (images : List String)
    (gcOk : Bool) : Registry × List Ev × Nat :=
  match images.find? (fun i => !check_name i) with
  | some bad => (reg, [Ev.errorMsg ("Invalid Docker repository/tag: " ++ bad)], 1)
  | none =>
    let targets := if images.isEmpty then reg.map (fun p => p.1) else images
    let c := runTargetsV2 dryRun removeFlag reg targets
    let g := garbage_collect dryRun gcOk
    (c.1, c.2.1 ++ g.1, if c.2.2 && g.2 then 0 else 1)

theorem pruneStep_dry (path : String) (del : Registry → Registry) (g : Registry) :
    pruneStep true path del g = (g, [Ev.wouldRemoveDir path]) := rfl

theorem pruneMany_dry (items : List (String × (Registry → Registry))) (g : Registry) :
    pruneMany true items g = (g, items.map (fun it => Ev.wouldRemoveDir it.1)) := by
  induction items generalizing g with
  | nil => rfl
  | cons it rest ih => simp [pruneMany, pruneStep_dry, ih]

theorem cleanRepoV2_dry_fst (rm : Bool) (reg : Registry) (repo tag : String) :
    (cleanRepoV2 true rm reg repo tag).1 = reg := by
  cases hl : reg.lookup repo with
  | none => simp [cleanRepoV2, hl]
  | some r =>
    simp only [cleanRepoV2, hl, pruneMany_dry, pruneStep_dry]
    cases rm
    all_goals repeat' split
    all_goals rfl

theorem runTargetsV2_dry_fst (rm : Bool) (reg : Registry) (imgs : List String) :
    (runTargetsV2 true rm reg imgs).1 = reg := by
  induction imgs generalizing reg with
  | nil => rfl
  | cons img rest ih =>
    show (runTargetsV2 true rm
      (cleanRepoV2 true rm reg (splitName "" img).1 (splitName "" img).2).1 rest).1 = reg
    rw [ih, cleanRepoV2_dry_fst]

/-- C6 counterexample.  A dry run on an empty registry with no images still
invokes the external garbage collector — with the `--dry-run` flag appended
to its command line — instead of skipping it and reporting a skip, so the
claim's "the external garbage collector is skipped and the skip is
explicitly reported" fails at this input. -/
theorem dry_run_gc_not_skipped_cex :
    runV2 true false [] [] true
      = ([], [Ev.ranGC ["/bin/registry", "garbage-collect", "--delete-untagged",
                        "--dry-run", "/etc/docker/registry/config.yml"]], 0) := rfl

/-- C6 (amended).  With dry-run active, every invocation performs zero
filesystem mutations regardless of the other flags; each pruned path is
reported as a would-be removal instead of being deleted; validation errors
and missing-target errors are still reported exactly as without dry-run;
and the external garbage collector is not skipped but invoked with the
`--dry-run` flag added to its command line. -/
theorem dry_run_frame :
    (∀ (rm : Bool) (reg : Registry) (images : List String) (gcOk : Bool),
      (runV2 true rm reg images gcOk).1 = reg) ∧
    (∀ (path : String) (del : Registry → Registry) (g : Registry),
      pruneStep true path del g = (g, [Ev.wouldRemoveDir path])) ∧
    (∀ (items : List (String × (Registry → Registry))) (g : Registry),
      pruneMany true items g = (g, items.map (fun it => Ev.wouldRemoveDir it.1))) ∧
    (∀ (rm : Bool) (reg : Registry) (repo tag : String),
      reg.lookup repo = none →
      cleanRepoV2 true rm reg repo tag
        = (reg, [Ev.errorMsg ("No such repository: " ++ repo)], false)) ∧
    (∀ (rm : Bool) (reg : Registry) (images : List String) (gcOk : Bool) (bad : String),
      images.find? (fun i => !check_name i) = some bad →
      runV2 true rm reg images gcOk
        = (reg, [Ev.errorMsg ("Invalid Docker repository/tag: " ++ bad)], 1)) ∧
    (∀ (rm : Bool) (reg : Registry) (images : List String) (gcOk : Bool),
      images.find? (fun i => !check_name i) = none →
      (runV2 true rm reg images gcOk).2.1
        = (runTargetsV2 true rm reg
            (if images.isEmpty then reg.map (fun p => p.1) else images)).2.1
          ++ [Ev.ranGC (gcCommand true)] ∧
      "--dry-run" ∈ gcCommand true) := by
  refine ⟨?_, pruneStep_dry, pruneMany_dry, ?_, ?_, ?_⟩
  · intro rm reg images gcOk
    cases hf : images.find? (fun i => !check_name i) with
    | some bad => simp [runV2, hf]
    | none =>
      show (runV2 true rm reg images gcOk).1 = reg
      simp only [runV2, hf]
      exact runTargetsV2_dry_fst rm reg _
  · intro rm reg repo tag h
    simp [cleanRepoV2, h]
  · intro rm reg images gcOk bad hf
    simp [runV2, hf]
  · intro rm reg images gcOk hf
    constructor
    · simp only [runV2, hf]
      rfl
    · simp [gcCommand]

/-- Witness for `dry_run_frame`: its missing-repository and validation
clauses applied to concrete inputs. -/
theorem dry_run_frame_witness :
    (([] : Registry).lookup "gone" = none ∧
      ["!bad"].find? (fun i => !check_name i) = some "!bad" ∧
      ["ok"].find? (fun i => !check_name i) = none) ∧
    (cleanRepoV2 true false [] "gone" ""
        = ([], [Ev.errorMsg ("No such repository: " ++ "gone")], false) ∧
      runV2 true false [] ["!bad"] true
        = ([], [Ev.errorMsg ("Invalid Docker repository/tag: " ++ "!bad")], 1) ∧
      ((runV2 true true [] ["ok"] true).2.1
          = (runTargetsV2 true true []
              (if (["ok"] : List String).isEmpty then ([] : Registry).map (fun p => p.1)
               else ["ok"])).2.1
            ++ [Ev.ranGC (gcCommand true)] ∧
        "--dry-run" ∈ gcCommand true)) :=
  ⟨⟨rfl, by decide, by decide⟩,
    ⟨dry_run_frame.2.2.2.1 false [] "gone" "" rfl,
     dry_run_frame.2.2.2.2.1 false [] ["!bad"] true "!bad" (by decide),
     dry_run_frame.2.2.2.2.2 true [] ["ok"] true (by decide)⟩⟩

end V2

end CleanRegistry
